import Mathlib

/- Formal model of the task-management pipeline implemented in
   `Task_management.py`.  Python strings are modelled as Lean `String`s
   (operated on through their character lists), `datetime` instants as
   natural numbers counting seconds from an epoch whose day 0 is a Monday,
   and the task store as a list of task records.  External collaborators
   (the spaCy NLP capability, the parsedatetime calendar parser, the
   Gregorian month table) are abstracted as oracle functions collected in
   an `Externals` structure; every piece of logic written in the Python
   source itself is embedded directly. -/

/-- Models Python whitespace as tested by `\s`, `str.strip()` and `str.split()`. -/
def isWsChar (c : Char) : Bool :=
  c = ' ' || c = '\t' || c = '\n' || c = '\r' || c = '\x0b' || c = '\x0c'

/-- Boolean test that `n` is a leading segment of `l` (character lists). -/
def isPrefixList : List Char → List Char → Bool
  | [], _ => true
  | _ :: _, [] => false
  | a :: as, b :: bs => a == b && isPrefixList as bs

/-- Boolean test that `n` occurs contiguously inside the second list; models
the Python membership test `n in h`. -/
def isSubstrList (n : List Char) : List Char → Bool
  | [] => n.isEmpty
  | c :: t => isPrefixList n (c :: t) || isSubstrList n t

/-- Models the Python membership test `needle in hay` on strings. -/
def containsStr (needle hay : String) : Bool :=
  isSubstrList needle.data hay.data

/-- Models Python `str.lower()` (ASCII range, which is all the source uses). -/
def lowerStr (s : String) : String := String.mk (s.data.map Char.toLower)

/-- Models Python `str.strip()`. -/
def trimWs (s : String) : String :=
  String.mk (((s.data.dropWhile isWsChar).reverse.dropWhile isWsChar).reverse)

/-- Models Python `str.split()` (split on whitespace runs, dropping empties). -/
def wordsAux : List Char → List Char → List String
  | [], acc => if acc.isEmpty then [] else [String.mk acc.reverse]
  | c :: cs, acc =>
    if isWsChar c then
      if acc.isEmpty then wordsAux cs []
      else String.mk acc.reverse :: wordsAux cs []
    else wordsAux cs (c :: acc)

/-- The whitespace-delimited words of `s`, as Python `s.split()` returns them. -/
def wordsOf (s : String) : List String := wordsAux s.data []

/-- Numeric value of a run of decimal digits, as Python `int` parses it. -/
def digitsToNat (cs : List Char) : Nat :=
  cs.foldl (fun a c => 10 * a + (c.toNat - 48)) 0

/- ------------------------------------------------------------------ -/
/- Difficulty extraction: TaskParser._extract_difficulty, lines 202-213. -/

/-- Attempt of the regex `difficulty\s+(\d+)` to match at the head of `cs`:
the literal keyword, then one or more whitespace characters, then a maximal
run of one or more digits whose numeric value is returned. -/
def matchDifficultyAt (cs : List Char) : Option Nat :=
  if isPrefixList "difficulty".data cs then
    let rest := cs.drop 10
    let ws := rest.takeWhile isWsChar
    let ds := (rest.dropWhile isWsChar).takeWhile Char.isDigit
    if !ws.isEmpty && !ds.isEmpty then some (digitsToNat ds) else none
  else none

/-- Leftmost match of `difficulty\s+(\d+)`, as `re.search` finds it: the
first position at which `matchDifficultyAt` succeeds. -/
def findDifficultyNum : List Char → Option Nat
  | [] => none
  | c :: cs =>
    match matchDifficultyAt (c :: cs) with
    | some n => some n
    | none => findDifficultyNum cs

/-- Embeds `TaskParser._extract_difficulty` (src lines 202-213): the
case-insensitive regex `difficulty\s+(\d+)` is searched for; a hit of value
`n` yields Easy for `n ≤ 2`, Medium for `n = 3`, Hard otherwise; with no
hit the default is Medium.  The source contains no sentiment-keyword scan. -/
def extract_difficulty (text : String) : String :=
  match findDifficultyNum (lowerStr text).data with
  | some n => if n ≤ 2 then "Easy" else if n = 3 then "Medium" else "Hard"
  | none => "Medium"

/-- Index-based reformulation of the leftmost `difficulty N` search, used to
state difficulty extraction the way the amended claim words it ("if the text
contains an explicit numeric scale phrase"). -/
def claimFirstNum (cs : List Char) : Option Nat :=
  (List.range cs.length).findSome? (fun i => matchDifficultyAt (cs.drop i))

/-- Difficulty assignment as the amended claim words it: an explicit numeric
scale phrase `difficulty N` maps through the 2/3 thresholds, and absent such
a phrase the result is always Medium (there is no keyword path). -/
def claimDifficulty (text : String) : String :=
  match claimFirstNum (lowerStr text).data with
  | some n => if n ≤ 2 then "Easy" else if n = 3 then "Medium" else "Hard"
  | none => "Medium"

theorem findDifficultyNum_eq (cs : List Char) :
    findDifficultyNum cs = claimFirstNum cs := by
  induction cs with
  | nil => rfl
  | cons c t ih =>
    unfold findDifficultyNum claimFirstNum
    rw [List.length_cons, List.range_succ_eq_map, List.findSome?_cons]
    cases h : matchDifficultyAt (c :: t) with
    | some n => simp [List.drop_zero, h]
    | none =>
      simp only [List.drop_zero, h]
      rw [List.findSome?_map]
      have : ((fun i => matchDifficultyAt ((c :: t).drop i)) ∘ Nat.succ)
          = (fun i => matchDifficultyAt (t.drop i)) := by
        funext i
        simp [Function.comp, List.drop_succ_cons]
      rw [this, ih]
      rfl

/-- C1 (counterexample): the claim asserts that sentiment keywords decide the
difficulty when no numeric phrase is present, so that "a challenging project"
yields Hard; `_extract_difficulty` has no keyword path and yields Medium. -/
theorem C1_counterexample : extract_difficulty "a challenging project" ≠ "Hard" := by
  decide

/-- C1 (amended): the extracted difficulty follows the numeric scale only: a
leftmost "difficulty N" phrase gives Easy for N ≤ 2, Medium for N = 3, Hard
for N > 3; absent a numeric phrase the result is always Medium — there is no
sentiment-keyword branch, so "a challenging project" yields Medium. -/
theorem C1_amended : ∀ (s : String),
    extract_difficulty s = claimDifficulty s ∧
    extract_difficulty "difficulty 4" = "Hard" ∧
    extract_difficulty "difficulty 1" = "Easy" ∧
    extract_difficulty "Difficulty 3" = "Medium" ∧
    extract_difficulty "a challenging project" = "Medium" := by
  intro s
  refine ⟨?_, by decide, by decide, by decide, by decide⟩
  unfold extract_difficulty claimDifficulty
  rw [findDifficultyNum_eq]

/- ------------------------------------------------------------------ -/
/- The time model.  An instant is a count of seconds from an epoch whose
   day 0 is a Monday, matching `datetime`'s Monday = 0 weekday convention.
   `strftime("%Y-%m-%dT%H:%M:%S")` renders at second precision and ISO
   strings of that fixed format compare lexicographically exactly as the
   instants compare numerically, so stored `Deadline` strings are modelled
   by their instants. -/

/-- The calendar day index of an instant (days since the epoch Monday). -/
def dayOf (t : Nat) : Nat := t / 86400

/-- The weekday of an instant, `datetime.weekday()` style: Monday = 0. -/
def weekdayOf (t : Nat) : Nat := dayOf t % 7

/-- The second of the day of an instant. -/
def secOfDay (t : Nat) : Nat := t % 86400

/-- Sunday 23:59:59 of the Monday-anchored week containing `now`, the claimed
end-of-week bound: `now + (6 - weekday) days`, with the time set to 23:59:59
(this exact value is computed at src lines 381-382). -/
def endOfWeekTs (now : Nat) : Nat :=
  (dayOf now + (6 - weekdayOf now)) * 86400 + 86399

/-- A stored task row: `Task_name`, `Deadline` (ISO timestamp modelled as an
instant), `difficulty`, `Status`, and the store-assigned `id`.  (Named
`TaskRow` because core Lean already reserves the name `Task`.) -/
structure TaskRow where
  id : Nat
  Task_name : String
  Deadline : Nat
  difficulty : String
  Status : String
deriving DecidableEq, Repr

/-- The descriptor returned by `TaskParser.extract_task_details`. -/
structure TaskDetails where
  Task_name : String
  Deadline : Nat
  difficulty : String
  Status : String
deriving DecidableEq, Repr

/-- The external collaborators of the parser, abstracted as oracles:
`nameOf` is `TaskParser._extract_task_name` (spaCy dependency parsing plus
indicator splitting), `deadlineOf` is `TaskParser._extract_deadline` (spaCy
parse plus `parse_deadline`), `pd` is `TaskParser.parse_deadline` (spaCy NER
plus parsedatetime), `calParse` is `parsedatetime.Calendar.parse` over free
text, and `monthEnd b` is the last day, 23:59:59, of the current month
(`b = false`) or the next month (`b = true`) per `calendar.monthrange`. -/
structure Externals where
  nameOf : String → Option String
  deadlineOf : String → Option Nat
  pd : String → Option Nat
  calParse : String → Option Nat
  monthEnd : Bool → Nat

/-- Trivial oracles (every external call fails), used for concrete runs whose
control flow never consults the externals. -/
def Etriv : Externals :=
  ⟨fun _ => none, fun _ => none, fun _ => none, fun _ => none, fun _ => 0⟩

/- ------------------------------------------------------------------ -/
/- Phrase tables of TaskParser.__init__, src lines 36-103.  Apostrophes in
   the source phrases are written with the \x27 escape. -/

def task_verbs : List String :=
  ["do", "complete", "finish", "submit", "work",
   "prepare", "review", "add", "create"]

def task_nouns : List String :=
  ["task", "assignment", "project", "homework",
   "work", "deadline", "due", "chapter"]

/-- The `temporal_relations` dict: category name paired with its phrase list,
in the source's insertion order (Python dicts iterate in that order). -/
def temporal_relations : List (String × List String) :=
  [("before",
    ["before", "by", "prior to", "earlier than", "up until",
     "before the end of", "before the deadline", "not later than",
     "before the specified date", "till", "until", "no later than"]),
   ("inclusive",
    ["on", "including"]),
   ("after",
    ["after", "following", "post", "from", "beyond",
     "later than", "after the deadline", "subsequent to",
     "onwards", "onward", "starting from"]),
   ("flexible",
    ["around", "about", "within the week", "within the month",
     "sometime", "whenever", "at the earliest", "as soon as",
     "in the near future", "approximately", "roughly"])]

/-- The `relative_patterns` dict: pattern name paired with the raw regex
source string, in insertion order. -/
def relative_patterns : List (String × String) :=
  [("this_week", "this week"), ("next_week", "next week"),
   ("this_month", "this month"), ("next_month", "next month"),
   ("today", "today"), ("tomorrow", "tomorrow"),
   ("weekend", "(this |)weekend")]

/-- The `specific_days` dict: weekday name paired with the raw regex source
string, in insertion order. -/
def specific_days : List (String × String) :=
  [("sunday", "(this |next |)sunday"), ("monday", "(this |next |)monday"),
   ("tuesday", "(this |next |)tuesday"),
   ("wednesday", "(this |next |)wednesday"),
   ("thursday", "(this |next |)thursday"), ("friday", "(this |next |)friday"),
   ("saturday", "(this |next |)saturday")]

def task_indicators : List String :=
  ["i gotta", "i have to", "i need to", "i must", "i should",
   "i ought to", "i will", "i wanna", "i plan to", "i intend to",
   "i\x27m going to", "i\x27ll", "i\x27d like to",
   "gotta", "need to", "have to", "should", "must", "ought to",
   "will", "wanna", "plan to", "intend to", "gonna", "needa",
   "haveta", "shoulda", "oughta", "will do",
   "to do", "to complete"]

/-- Embeds `TaskParser.is_task_query` (src lines 105-115): any task
indicator, task verb or task noun occurring as a substring of the lowered
text makes the text a task query. -/
def is_task_query (lower : String) : Bool :=
  task_indicators.any (fun i => containsStr i lower) ||
  (task_verbs.any (fun v => containsStr v lower) ||
   task_nouns.any (fun n => containsStr n lower))

/-- The first relation category whose phrase list has a substring hit in the
lowered text, in the dict's fixed category order (src lines 279-282). -/
def firstRelation (lower : String) : Option String :=
  temporal_relations.findSome?
    (fun rp => if rp.2.any (fun p => containsStr p lower) then some rp.1 else none)

/-- The default-relation date cue of src lines 285-287: the raw regex source
strings of `relative_patterns` and `specific_days` are themselves tested with
the Python substring operator `in` (not as regexes), so only the plain
literal patterns can ever hit on natural text. -/
def hasDefaultCue (lower : String) : Bool :=
  (relative_patterns.map Prod.snd ++ specific_days.map Prod.snd).any
    (fun p => containsStr p lower)

/-- A regex of the shape `(this |)X` or `(this |next |)X` has an empty
alternative in its leading group, so `re.search` succeeds on some text
exactly when the base literal `X` occurs in it; `regexBase` recovers that
base literal (plain patterns are their own base). -/
def regexBase (pat : String) : String :=
  if isPrefixList "(this |next |)".data pat.data then
    String.mk (pat.data.drop 14)
  else if isPrefixList "(this |)".data pat.data then
    String.mk (pat.data.drop 8)
  else pat

/-- Embeds `TaskParser._handle_relative_time` (src lines 313-345).  For the
week patterns the start is `today - weekday` days — a Monday instant that
keeps the current time of day — and the end adds 6 days, 23 hours, 59
minutes and 59 seconds to it; only `today`, `tomorrow` and `weekend` zero
the time of day via `replace`.  The month patterns consult the Gregorian
month table, an external. -/
def handle_relative_time (E : Externals) (now : Nat) (pname : String) : Option Nat :=
  match pname with
  | "today" => some (dayOf now * 86400 + 86399)
  | "tomorrow" => some ((dayOf now + 1) * 86400 + 86399)
  | "this_week" => some (now - weekdayOf now * 86400 + (6 * 86400 + 86399))
  | "next_week" => some (now - weekdayOf now * 86400 + 7 * 86400 + (6 * 86400 + 86399))
  | "this_month" => some (E.monthEnd false)
  | "next_month" => some (E.monthEnd true)
  | "weekend" =>
    let wd := weekdayOf now
    let daysAhead := if wd ≤ 5 then 5 - wd else 5 + 7 - wd
    some ((dayOf now + daysAhead + 1) * 86400 + 86399)
  | _ => none

/-- The `days_ahead` dict of `TaskParser._handle_specific_day`. -/
def dayIndex (day : String) : Option Nat :=
  match day with
  | "monday" => some 0
  | "tuesday" => some 1
  | "wednesday" => some 2
  | "thursday" => some 3
  | "friday" => some 4
  | "saturday" => some 5
  | "sunday" => some 6
  | _ => none

/-- Embeds `TaskParser._handle_specific_day` (src lines 347-367): the target
weekday index minus today's weekday, wrapped by 7 when negative, gives the
days ahead; the result is that calendar day at 23:59:59. -/
def handle_specific_day (now : Nat) (day : String) : Option Nat :=
  match dayIndex (lowerStr day) with
  | none => none
  | some target =>
    let wd := weekdayOf now
    let daysUntil := if target < wd then target + 7 - wd else target - wd
    some ((dayOf now + daysUntil) * 86400 + 86399)

/- ------------------------------------------------------------------ -/
/- The task-addition deadline regex of parse_query, src line 265:
   `(by|due|until)\s+(.+?)(\s+with|\s*$)` with IGNORECASE.  The keyword
   alternation is tried at each position left to right; after the keyword
   the regex needs at least one whitespace character and one further
   character; the non-greedy group 2 is the shortest non-empty segment whose
   remainder starts with whitespace-then-"with" or consists of whitespace
   only (the second alternative always succeeds at the end of the text). -/

/-- Does `cs` start with one or more whitespace characters followed by the
literal `with`?  (The `\s+with` alternative of group 3.) -/
def wsThenWith (cs : List Char) : Bool :=
  !(cs.takeWhile isWsChar).isEmpty &&
    isPrefixList "with".data (cs.dropWhile isWsChar)

/-- The non-greedy cut of group 2: `body.take i` for the least `i ≥ 1` whose
remainder satisfies group 3.  `i = body.length` always qualifies, since an
empty remainder is whitespace-only. -/
def cutClause (body : List Char) : List Char :=
  match (List.range body.length).findSome? (fun j =>
    let tail := body.drop (j + 1)
    if wsThenWith tail || tail.all isWsChar then some (body.take (j + 1))
    else none) with
  | some cut => cut
  | none => body

/-- Case-insensitive keyword match at the head of `cs`: on success, the
remainder after the keyword.  The three alternatives have distinct first
letters, so alternation order is immaterial. -/
def kwAt (cs : List Char) : Option (List Char) :=
  if (cs.take 2).map Char.toLower = "by".data then some (cs.drop 2)
  else if (cs.take 3).map Char.toLower = "due".data then some (cs.drop 3)
  else if (cs.take 5).map Char.toLower = "until".data then some (cs.drop 5)
  else none

/-- After a keyword hit, the whitespace-plus-body requirement and the group 2
value, already stripped as the source does (`deadline_match.group(2).strip()`). -/
def clauseAfter (rest : List Char) : Option String :=
  let body := rest.dropWhile isWsChar
  if (rest.takeWhile isWsChar).isEmpty || body.isEmpty then none
  else some (trimWs (String.mk (cutClause body)))

/-- Leftmost match of the task-addition deadline regex over the raw text. -/
def findDeadlineClause : List Char → Option String
  | [] => none
  | c :: cs =>
    match (match kwAt (c :: cs) with
           | some rest => clauseAfter rest
           | none => none) with
    | some clause => some clause
    | none => findDeadlineClause cs

/-- Embeds `TaskParser.parse_query` (src lines 254-311), returning the tuple
`(target_date, relation, is_task_query, end_date)`.  A task query whose text
matches the deadline regex and whose clause parses takes the early return
with relation `before`.  Otherwise the relation is the first temporal
category with a phrase hit, defaulting to `before` when one of the raw date
pattern strings occurs literally in the text (src lines 285-288, a plain
substring test of the regex source strings).  Only when a relation was found
is a target date resolved: first the relative patterns, then the specific
days — both searched with `re.search`, reduced here to their base literals —
then the calendar-parser oracle over the whole text.  `end_date` is never
assigned in the source and stays `none`. -/
def parse_query (E : Externals) (now : Nat) (text : String) :
    Option Nat × Option String × Bool × Option Nat :=
  let lower := lowerStr text
  let is_task := is_task_query lower
  let early : Option Nat :=
    if is_task then
      match findDeadlineClause text.data with
      | some clause => E.pd clause
      | none => none
    else none
  match early with
  | some t => (some t, some "before", true, none)
  | none =>
    let relation : Option String :=
      match firstRelation lower with
      | some r => some r
      | none => if hasDefaultCue lower then some "before" else none
    match relation with
    | none => (none, none, is_task, none)
    | some rel =>
      let t1 : Option Nat :=
        match relative_patterns.findSome?
            (fun p => if containsStr (regexBase p.2) lower then some p.1 else none) with
        | some pname => handle_relative_time E now pname
        | none => none
      let t2 : Option Nat :=
        match t1 with
        | some t => some t
        | none =>
          match specific_days.findSome?
              (fun p => if containsStr (regexBase p.2) lower then some p.1 else none) with
          | some day => handle_specific_day now day
          | none => none
      let t3 : Option Nat :=
        match t2 with
        | some t => some t
        | none => E.calParse text
      (t3, some rel, is_task, none)

/-- C4 (counterexample): "friday" contains a specific weekday name and no
relation phrase, yet `parse_query` assigns no relation at all — the default
check tests the raw regex string `(this |next |)friday` with the substring
operator, which never occurs in the text. -/
theorem C4_counterexample :
    (parse_query Etriv 0 "friday").2.1 = none ∧
    (parse_query Etriv 0 "friday").2.1 ≠ some "before" := by
  constructor
  · decide
  · decide

/-- C4 (amended): with no relation phrase present (and the text not a task
query), `parse_query` defaults the relation to `before` exactly when one of
the raw pattern source strings occurs literally in the text; since the
weekend and weekday patterns are regex sources such as
`(this |next |)friday`, a bare weekday name or "weekend" never triggers the
default, as the second conjunct verifies on every such word. -/
theorem C4_amended : ∀ (E : Externals) (now : Nat) (text : String),
    is_task_query (lowerStr text) = false →
    firstRelation (lowerStr text) = none →
    ((parse_query E now text).2.1
      = if hasDefaultCue (lowerStr text) then some "before" else none) ∧
    (["monday", "tuesday", "wednesday", "thursday", "friday", "saturday",
      "sunday", "weekend"].all (fun w => !(hasDefaultCue w)) = true) := by
  intro E now text h1 h2
  refine ⟨?_, by decide⟩
  simp only [parse_query, h1, h2, Bool.false_eq_true, if_false]
  cases hc : hasDefaultCue (lowerStr text) <;> simp [hc]

/-- C4 (witness): "today stuff" is not a task query and hits no relation
phrase, but literally contains the cue "today", so the default fires. -/
theorem C4_witness :
    ((parse_query Etriv 0 "today stuff").2.1
      = if hasDefaultCue (lowerStr "today stuff") then some "before" else none) ∧
    (["monday", "tuesday", "wednesday", "thursday", "friday", "saturday",
      "sunday", "weekend"].all (fun w => !(hasDefaultCue w)) = true) :=
  C4_amended Etriv 0 "today stuff" (by decide) (by decide)

/-- C6 (counterexample): at the instant 262800 (Thursday 01:00:00 of epoch
week 0) the code resolves "this week" to 608399 (Monday 00:59:59 of the next
week), not to Sunday 23:59:59 of the current week, which is 604799. -/
theorem C6_counterexample :
    handle_relative_time Etriv 262800 "this_week" = some 608399 ∧
    endOfWeekTs 262800 = 604799 ∧ (608399 : Nat) ≠ 604799 := by
  refine ⟨by decide, by decide, by decide⟩

/-- C6 (amended): resolving "this week" yields Sunday 23:59:59 of the
Monday-anchored current week PLUS the current time of day in seconds (the
start-of-week subtraction keeps the clock time, and 6d 23:59:59 is then
added), so it equals Sunday 23:59:59 exactly when invoked at midnight;
"next week" adds a further 7 days. -/
theorem C6_amended : ∀ (E : Externals) (now : Nat),
    handle_relative_time E now "this_week"
      = some (endOfWeekTs now + secOfDay now) ∧
    handle_relative_time E now "next_week"
      = some (endOfWeekTs now + secOfDay now + 7 * 86400) := by
  intro E now
  have h1 : handle_relative_time E now "this_week"
      = some (now - weekdayOf now * 86400 + (6 * 86400 + 86399)) := rfl
  have h2 : handle_relative_time E now "next_week"
      = some (now - weekdayOf now * 86400 + 7 * 86400 + (6 * 86400 + 86399)) := rfl
  rw [h1, h2]
  constructor
  · congr 1
    unfold endOfWeekTs secOfDay weekdayOf dayOf
    omega
  · congr 1
    unfold endOfWeekTs secOfDay weekdayOf dayOf
    omega

theorem dayIndex_lt (s : String) (i : Nat) (h : dayIndex s = some i) : i < 7 := by
  unfold dayIndex at h
  split at h <;> simp_all <;> omega

/-- C7: resolving a weekday name from any current instant gives the day
`(target_weekday - today_weekday) mod 7` days ahead (here in the natural
encoding `(7 + target - today) % 7`, identical for arguments below 7) at
23:59:59, so its weekday matches the named one and it never precedes the
current day; zero days ahead when today already is that weekday. -/
theorem C7_theorem : ∀ (now : Nat) (day : String) (idx : Nat),
    dayIndex (lowerStr day) = some idx →
    handle_specific_day now day
      = some ((dayOf now + (7 + idx - weekdayOf now) % 7) * 86400 + 86399) ∧
    weekdayOf ((dayOf now + (7 + idx - weekdayOf now) % 7) * 86400 + 86399) = idx ∧
    dayOf now ≤ dayOf ((dayOf now + (7 + idx - weekdayOf now) % 7) * 86400 + 86399) ∧
    secOfDay ((dayOf now + (7 + idx - weekdayOf now) % 7) * 86400 + 86399) = 86399 := by
  intro now day idx h
  have hlt : idx < 7 := dayIndex_lt _ _ h
  have hwd : weekdayOf now < 7 := Nat.mod_lt _ (by norm_num)
  refine ⟨?_, ?_, ?_, ?_⟩
  · unfold handle_specific_day
    rw [h]
    have : (if idx < weekdayOf now then idx + 7 - weekdayOf now
            else idx - weekdayOf now) = (7 + idx - weekdayOf now) % 7 := by
      split <;> omega
    simp only []
    rw [this]
  · unfold weekdayOf dayOf at *
    omega
  · unfold dayOf at *
    omega
  · unfold secOfDay
    omega

/-- C7 (witness): from Thursday 01:00:00 of epoch week 0, "Friday" resolves
one day ahead, to Friday 23:59:59. -/
theorem C7_witness :
    handle_specific_day 262800 "Friday"
      = some ((dayOf 262800 + (7 + 4 - weekdayOf 262800) % 7) * 86400 + 86399) ∧
    weekdayOf ((dayOf 262800 + (7 + 4 - weekdayOf 262800) % 7) * 86400 + 86399) = 4 ∧
    dayOf 262800 ≤ dayOf ((dayOf 262800 + (7 + 4 - weekdayOf 262800) % 7) * 86400 + 86399) ∧
    secOfDay ((dayOf 262800 + (7 + 4 - weekdayOf 262800) % 7) * 86400 + 86399) = 86399 :=
  C7_theorem 262800 "Friday" 4 (by decide)

/- ------------------------------------------------------------------ -/
/- Task matching and disambiguation: handle_task_completion (src lines
   587-658) and delete_task (src lines 732-791). -/

/-- The stop words removed from a completion description (src line 605). -/
def common_words : List String := ["the", "a", "an", "this", "that", "these", "those"]

/-- The whitespace-delimited terms of the cleaned completion description with
the stop words removed (src lines 606-607). -/
def taskTerms (desc : String) : List String :=
  (wordsOf (trimWs desc)).filter (fun w => !common_words.contains w)

/-- The completion match rule (src line 622): some term occurs as a substring
of the lowered task name. -/
def matchesAnyTerm (terms : List String) (t : TaskRow) : Bool :=
  terms.any (fun term => containsStr term (lowerStr t.Task_name))

/-- The observable outcome of `handle_task_completion` up to the selection
prompt: an early report (no usable terms, empty store, no match) or the
numbered candidate list printed before the blocking `input()` call — the
function reaches that prompt whenever at least one task matches, including
a single match. -/
inductive CompletionOutcome where
  | noTerms
  | noTasks
  | noMatch
  | askSelection (candidates : List TaskRow)
deriving DecidableEq, Repr

/-- Embeds `handle_task_completion` (src lines 587-655) from the point where
the completion-indicator phrases have been stripped by the `re.sub` chain:
`desc` is the variable `task_description`, already lowercased and cleaned. -/
def handle_task_completion (tasks : List TaskRow) (desc : String) : CompletionOutcome :=
  let terms := taskTerms desc
  if terms.isEmpty then .noTerms
  else if tasks.isEmpty then .noTasks
  else
    let matching := tasks.filter (fun t => matchesAnyTerm terms t)
    if matching.isEmpty then .noMatch
    else .askSelection matching

/-- The selection step of the prompt loop (src lines 644-646): a number in
`[1, len(candidates)]` picks the corresponding candidate, anything else is
rejected. -/
def completeSelection (candidates : List TaskRow) (choice : Nat) : Option TaskRow :=
  if 1 ≤ choice ∧ choice ≤ candidates.length then candidates[choice - 1]? else none

/-- Outcomes as the claim describes them: a single match auto-resolves, two
or more enter disambiguation, zero fail. -/
inductive SpecOutcome where
  | autoResolve (t : TaskRow)
  | disambiguate (l : List TaskRow)
  | fail
deriving DecidableEq, Repr

/-- The completion protocol as the claim words it (modelled from the claim
for comparison with the source): exactly one matching task resolves
automatically, several enter disambiguation. -/
def claimCompletion (tasks : List TaskRow) (desc : String) : SpecOutcome :=
  match tasks.filter (fun t => matchesAnyTerm (taskTerms desc) t) with
  | [t] => .autoResolve t
  | [] => .fail
  | l => .disambiguate l

/-- Removal of the first occurrence of `ndl`, as Python
`str.replace(ndl, '', 1)` performs it. -/
def removeFirstList (ndl : List Char) : List Char → List Char
  | [] => []
  | c :: t =>
    if ndl.isEmpty then c :: t
    else if isPrefixList ndl (c :: t) then t.drop (ndl.length - 1)
    else c :: removeFirstList ndl t

/-- Models Python `hay.replace(ndl, '', 1)`. -/
def removeFirst (hay ndl : String) : String :=
  String.mk (removeFirstList ndl.data hay.data)

/-- The cleaned deletion description of src line 736:
`query.lower().replace('delete', '', 1).strip()`. -/
def deleteClean (query : String) : String :=
  trimWs (removeFirst (lowerStr query) "delete")

/-- The deletion match rule (src line 750): the ENTIRE cleaned description
must occur as a substring of the lowered task name — unlike completion,
there is no per-term split. -/
def matchesDeletion (desc : String) (t : TaskRow) : Bool :=
  containsStr desc (lowerStr t.Task_name)

/-- The matching-task list built by `delete_task` (src lines 748-751). -/
def delete_task_matches (tasks : List TaskRow) (query : String) : List TaskRow :=
  tasks.filter (fun t => matchesDeletion (deleteClean query) t)

def rowMathHomework : TaskRow := ⟨1, "Math homework", 950000, "Easy", "To Do"⟩

def rowScienceLab : TaskRow := ⟨2, "Science lab", 960000, "Medium", "To Do"⟩

theorem isPrefixList_iff : ∀ (n l : List Char),
    isPrefixList n l = true ↔ ∃ post, l = n ++ post := by
  intro n
  induction n with
  | nil =>
    intro l
    simp [isPrefixList]
  | cons a as ih =>
    intro l
    cases l with
    | nil =>
      simp [isPrefixList]
    | cons b bs =>
      rw [show isPrefixList (a :: as) (b :: bs) = (a == b && isPrefixList as bs) from rfl]
      rw [Bool.and_eq_true, beq_iff_eq, ih]
      constructor
      · rintro ⟨rfl, post, rfl⟩
        exact ⟨post, rfl⟩
      · rintro ⟨post, hp⟩
        injection hp with hp1 hp2
        exact ⟨hp1.symm, post, hp2⟩

theorem isSubstrList_iff : ∀ (n h : List Char),
    isSubstrList n h = true ↔ ∃ pre post, h = pre ++ n ++ post := by
  intro n h
  induction h with
  | nil =>
    rw [show isSubstrList n [] = n.isEmpty from rfl, List.isEmpty_iff]
    constructor
    · rintro rfl
      exact ⟨[], [], rfl⟩
    · rintro ⟨pre, post, hh⟩
      rcases List.append_eq_nil.mp (List.append_eq_nil.mp hh.symm).1 with ⟨-, h2⟩
      exact h2
  | cons c t ih =>
    rw [show isSubstrList n (c :: t) = (isPrefixList n (c :: t) || isSubstrList n t) from rfl]
    rw [Bool.or_eq_true, isPrefixList_iff, ih]
    constructor
    · rintro (⟨post, hp⟩ | ⟨pre, post, hp⟩)
      · exact ⟨[], post, by simpa using hp⟩
      · exact ⟨c :: pre, post, by simp [hp]⟩
    · rintro ⟨pre, post, hp⟩
      cases pre with
      | nil =>
        left
        exact ⟨post, by simpa using hp⟩
      | cons x xs =>
        right
        injection hp with hp1 hp2
        exact ⟨xs, post, hp2⟩

/-- C9 (counterexample): the deletion request "delete math project" against
the stored task "Math homework".  The term "math" of the cleaned description
occurs in the task name, so the claimed per-term rule selects the task; the
deletion code requires the whole description "math project" as one substring
and selects nothing. -/
theorem C9_counterexample :
    matchesDeletion (deleteClean "delete math project") rowMathHomework = false ∧
    matchesAnyTerm (taskTerms (deleteClean "delete math project")) rowMathHomework = true ∧
    delete_task_matches [rowMathHomework] "delete math project" = [] := by
  refine ⟨by decide, by decide, by decide⟩

/-- C9 (amended): the per-term substring rule governs completion requests
only; for deletion requests the ENTIRE cleaned description must occur as a
case-insensitive contiguous substring of the task name.  Both matchers are
characterised against the mathematical occurrence relation. -/
theorem C9_amended : ∀ (desc : String) (t : TaskRow),
    (matchesAnyTerm (taskTerms desc) t = true ↔
      ∃ term ∈ taskTerms desc,
        ∃ pre post, (lowerStr t.Task_name).data = pre ++ term.data ++ post) ∧
    (matchesDeletion desc t = true ↔
      ∃ pre post, (lowerStr t.Task_name).data = pre ++ desc.data ++ post) := by
  intro desc t
  constructor
  · rw [matchesAnyTerm, List.any_eq_true]
    constructor
    · rintro ⟨term, hmem, hterm⟩
      exact ⟨term, hmem, (isSubstrList_iff _ _).mp hterm⟩
    · rintro ⟨term, hmem, hocc⟩
      exact ⟨term, hmem, (isSubstrList_iff _ _).mpr hocc⟩
  · rw [matchesDeletion, containsStr]
    exact isSubstrList_iff _ _

/-- C2 (counterexample): with tasks "Math homework" and "Science lab" and
cleaned description "math", exactly one task matches, yet the code still
prints a numbered candidate list of size one and blocks on a selection
prompt — the same outcome as an ambiguous match — instead of resolving
automatically as the claim states (the claim-side protocol auto-resolves). -/
theorem C2_counterexample :
    handle_task_completion [rowMathHomework, rowScienceLab] "math"
      = CompletionOutcome.askSelection [rowMathHomework] ∧
    claimCompletion [rowMathHomework, rowScienceLab] "math"
      = SpecOutcome.autoResolve rowMathHomework := by
  refine ⟨by decide, by decide⟩

theorem find?_eq_head_filter {α : Type} (p : α → Bool) :
    ∀ (l : List α), l.find? p = (l.filter p).head? := by
  intro l
  induction l with
  | nil => rfl
  | cons a t ih =>
    by_cases hp : p a
    · simp [List.find?_cons, List.filter_cons, hp]
    · simp only [List.find?_cons, List.filter_cons, hp, Bool.false_eq_true, if_false]
      exact ih

/-- C2 (amended): whenever the cleaned description matches at least one
stored task — including exactly one — the user is shown a numbered candidate
list rather than an automatic resolution; the list is the matching tasks in
discovery (store) order, its size equals the match count, and a subsequent
bare selection "1" resolves to the first matching task in that original
discovery order. -/
theorem C2_amended : ∀ (tasks : List TaskRow) (desc : String) (l : List TaskRow),
    handle_task_completion tasks desc = CompletionOutcome.askSelection l →
    List.Sublist l tasks ∧
    l.length = tasks.countP (fun t => matchesAnyTerm (taskTerms desc) t) ∧
    completeSelection l 1 = tasks.find? (fun t => matchesAnyTerm (taskTerms desc) t) := by
  intro tasks desc l h
  simp only [handle_task_completion] at h
  split at h
  · exact absurd h (by simp)
  · split at h
    · exact absurd h (by simp)
    · split at h
      · exact absurd h (by simp)
      · rename_i hne
        have hl : l = tasks.filter (fun t => matchesAnyTerm (taskTerms desc) t) := by
          injection h with h1
          exact h1.symm
        subst hl
        refine ⟨List.filter_sublist _, ?_, ?_⟩
        · rw [List.countP_eq_length_filter]
        · rw [find?_eq_head_filter]
          have hlen : 1 ≤ (tasks.filter (fun t => matchesAnyTerm (taskTerms desc) t)).length := by
            cases hfe : tasks.filter (fun t => matchesAnyTerm (taskTerms desc) t) with
            | nil => exact absurd (by simp [hfe]) hne
            | cons x xs => simp [hfe]
          rw [completeSelection, if_pos ⟨le_refl 1, hlen⟩]
          simp [List.head?_eq_getElem?]

/-- C2 (witness): the amended protocol at the single-match instance. -/
theorem C2_witness :
    List.Sublist [rowMathHomework] [rowMathHomework, rowScienceLab] ∧
    ([rowMathHomework] : List TaskRow).length
      = [rowMathHomework, rowScienceLab].countP
          (fun t => matchesAnyTerm (taskTerms "math") t) ∧
    completeSelection [rowMathHomework] 1
      = [rowMathHomework, rowScienceLab].find?
          (fun t => matchesAnyTerm (taskTerms "math") t) :=
  C2_amended [rowMathHomework, rowScienceLab] "math" [rowMathHomework] (by decide)

/- ------------------------------------------------------------------ -/
/- Task creation: TaskParser.extract_task_details (src lines 117-130) and
   add_task_natural (src lines 437-451). -/

/-- Python truthiness of the extracted task name: `None` and the empty
string are both falsy in the `if task_name and deadline` guard. -/
def nameTruthy (o : Option String) : Bool :=
  match o with
  | some n => !(n == "")
  | none => false

/-- Embeds `TaskParser.extract_task_details` (src lines 117-130): the name
and deadline extractors (spaCy-dependent, abstracted as the `nameOf` and
`deadlineOf` oracles) and the difficulty extractor run on the text; a full
descriptor with status "To Do" is returned only when both the name and the
deadline are truthy, otherwise nothing. -/
def extract_task_details (E : Externals) (text : String) : Option TaskDetails :=
  match E.nameOf text, E.deadlineOf text with
  | some name, some dl =>
    if name = "" then none
    else some ⟨name, dl, extract_difficulty text, "To Do"⟩
  | _, _ => none

/-- The row inserted for a descriptor, with the store-assigned id. -/
def mkTaskRow (nid : Nat) (d : TaskDetails) : TaskRow :=
  ⟨nid, d.Task_name, d.Deadline, d.difficulty, d.Status⟩

/-- Embeds `add_task_natural` (src lines 437-451): on a complete descriptor
the row is inserted and returned; on extraction failure the store is left
untouched and nothing is returned. -/
def add_task_natural (E : Externals) (store : List TaskRow) (nid : Nat)
    (q : String) : List TaskRow × Option TaskRow :=
  match extract_task_details E q with
  | some det => (store ++ [mkTaskRow nid det], some (mkTaskRow nid det))
  | none => (store, none)

/-- C8: extraction yields a complete descriptor exactly when both a (truthy)
task name and a deadline were resolved; the descriptor always carries status
"To Do" and the extracted difficulty; and the store after `add_task_natural`
is unchanged precisely when extraction failed — nothing partial is ever
persisted. -/
theorem C8_theorem : ∀ (E : Externals) (text : String) (store : List TaskRow) (nid : Nat),
    (extract_task_details E text).isSome
      = (nameTruthy (E.nameOf text) && (E.deadlineOf text).isSome) ∧
    ((add_task_natural E store nid text).1 = store ↔
      extract_task_details E text = none) ∧
    Option.elim (extract_task_details E text) True
      (fun det => det.Status = "To Do" ∧ det.difficulty = extract_difficulty text) := by
  intro E text store nid
  refine ⟨?_, ?_, ?_⟩
  · unfold extract_task_details nameTruthy
    cases hn : E.nameOf text with
    | none => rfl
    | some name =>
      cases hd : E.deadlineOf text with
      | none => simp
      | some dl =>
        by_cases he : name = "" <;> simp [he]
  · unfold add_task_natural
    cases hx : extract_task_details E text with
    | none => simp
    | some det =>
      simp only [Option.some_ne_none, iff_false]
      intro hcontra
      have : store.length + 1 = store.length := by
        conv_rhs => rw [← hcontra]
        simp
      omega
  · unfold extract_task_details
    cases hn : E.nameOf text with
    | none => exact trivial
    | some name =>
      cases hd : E.deadlineOf text with
      | none => exact trivial
      | some dl =>
        by_cases he : name = "" <;> simp [he]

/-- C8 (witness): concrete oracles resolving a name and a deadline, under
which the descriptor is complete and the insert appends exactly one row. -/
theorem C8_witness :
    (extract_task_details
        ⟨fun _ => some "Report", fun _ => some 123, fun _ => none,
         fun _ => none, fun _ => 0⟩ "finish report by tomorrow").isSome
      = (nameTruthy ((⟨fun _ => some "Report", fun _ => some 123, fun _ => none,
            fun _ => none, fun _ => 0⟩ : Externals).nameOf "finish report by tomorrow")
          && (((⟨fun _ => some "Report", fun _ => some 123, fun _ => none,
            fun _ => none, fun _ => 0⟩ : Externals).deadlineOf
              "finish report by tomorrow")).isSome) ∧
    ((add_task_natural
        ⟨fun _ => some "Report", fun _ => some 123, fun _ => none,
         fun _ => none, fun _ => 0⟩ [rowMathHomework] 7 "finish report by tomorrow").1
        = [rowMathHomework] ↔
      extract_task_details
        ⟨fun _ => some "Report", fun _ => some 123, fun _ => none,
         fun _ => none, fun _ => 0⟩ "finish report by tomorrow" = none) ∧
    Option.elim
      (extract_task_details
        ⟨fun _ => some "Report", fun _ => some 123, fun _ => none,
         fun _ => none, fun _ => 0⟩ "finish report by tomorrow") True
      (fun det => det.Status = "To Do" ∧
        det.difficulty = extract_difficulty "finish report by tomorrow") :=
  C8_theorem
    ⟨fun _ => some "Report", fun _ => some 123, fun _ => none,
     fun _ => none, fun _ => 0⟩ "finish report by tomorrow" [rowMathHomework] 7

/- ------------------------------------------------------------------ -/
/- The query orchestrator: handle_common_queries, src lines 368-435. -/

/-- The viewing-query indicator words (src line 374). -/
def viewing_indicators : List String := ["show", "what", "list", "view", "display", "get"]

/-- Does the lowered query contain a viewing indicator (src line 375)? -/
def viewingHit (lower : String) : Bool :=
  viewing_indicators.any (fun i => containsStr i lower)

/-- The store read filtered by relation, src lines 412-429: inclusive
restricts to the target's calendar day, before and after compare against
the target instant, flexible filters only when an end date exists — and
since `parse_query` never produces one, a flexible relation (or any other
fall-through) executes the unfiltered select. -/
def dateFilter (target? : Option Nat) (rel? : Option String) (endD? : Option Nat)
    (store : List TaskRow) : Option (List TaskRow) :=
  match target? with
  | none => none
  | some tgt =>
    if rel? = some "inclusive" then
      some (store.filter (fun t =>
        decide (dayOf tgt * 86400 ≤ t.Deadline) &&
        decide (t.Deadline ≤ dayOf tgt * 86400 + 86399)))
    else if rel? = some "before" then
      some (store.filter (fun t => decide (t.Deadline ≤ tgt)))
    else if rel? = some "after" then
      some (store.filter (fun t => decide (tgt ≤ t.Deadline)))
    else if rel? = some "flexible" then
      match endD? with
      | some e =>
        some (store.filter (fun t =>
          decide (tgt ≤ t.Deadline) && decide (t.Deadline ≤ e)))
      | none => some store
    else some store

/-- Embeds `handle_common_queries` (src lines 368-435), returning the reply
of the function paired with the store after its effects.  A viewing query
containing "week" reads the tasks whose deadline lies between the CURRENT
instant (`datetime.now()`, second precision) and Sunday 23:59:59 of the
current week; any other viewing query reads everything.  Otherwise the text
is parsed: a task query with a complete descriptor inserts it and replies
with nothing; remaining queries run the relation-filtered read when a target
date was found, and reply with nothing when none was. -/
def handle_common_queries (E : Externals) (now : Nat) (store : List TaskRow)
    (nid : Nat) (q : String) : Option (List TaskRow) × List TaskRow :=
  let lower := lowerStr q
  if viewingHit lower then
    if containsStr "week" lower then
      (some (store.filter (fun t =>
        decide (now ≤ t.Deadline) && decide (t.Deadline ≤ endOfWeekTs now))), store)
    else (some store, store)
  else
    match parse_query E now q with
    | (target?, relation?, isTask, endD?) =>
      if isTask then
        match extract_task_details E q with
        | some det => (none, store ++ [mkTaskRow nid det])
        | none => (dateFilter target? relation? endD? store, store)
      else (dateFilter target? relation? endD? store, store)

/-- The week view as the claim words it: the stored tasks whose deadline lies
within [today 00:00:00, Sunday 23:59:59 of the current week] (modelled from
the claim for comparison with the source). -/
def claimWeekSet (now : Nat) (store : List TaskRow) : List TaskRow :=
  store.filter (fun t =>
    decide (dayOf now * 86400 ≤ t.Deadline) && decide (t.Deadline ≤ endOfWeekTs now))

def rowEssay : TaskRow := ⟨3, "Essay", 201600, "Medium", "To Do"⟩

/-- C3 (counterexample): at Wednesday 12:00:00 of epoch week 0 (instant
216000), a task due the same Wednesday at 08:00 (instant 201600) lies in the
claimed window [today 00:00:00, Sunday 23:59:59] but the code's week view
returns the empty list, because its lower bound is the current instant. -/
theorem C3_counterexample :
    (handle_common_queries Etriv 216000 [rowEssay] 9 "show tasks due this week").1
      = some [] ∧
    claimWeekSet 216000 [rowEssay] = [rowEssay] ∧
    ([] : List TaskRow) ≠ [rowEssay] := by
  refine ⟨by decide, by decide, by decide⟩

/-- C3 (amended): a viewing query mentioning "week" returns exactly the
stored tasks whose deadline lies in the closed interval from the CURRENT
instant (the moment of the query, truncated to seconds — not today
00:00:00) to Sunday 23:59:59 of the Monday-anchored current week; the upper
bound really is a Sunday at second 86399 of its day, on or after today. -/
theorem C3_amended : ∀ (E : Externals) (now : Nat) (store : List TaskRow)
    (nid : Nat) (q : String),
    viewingHit (lowerStr q) = true →
    containsStr "week" (lowerStr q) = true →
    (handle_common_queries E now store nid q).1
      = some (store.filter (fun t =>
          decide (now ≤ t.Deadline) && decide (t.Deadline ≤ endOfWeekTs now))) ∧
    weekdayOf (endOfWeekTs now) = 6 ∧
    secOfDay (endOfWeekTs now) = 86399 ∧
    dayOf now ≤ dayOf (endOfWeekTs now) := by
  intro E now store nid q h1 h2
  refine ⟨?_, ?_, ?_, ?_⟩
  · simp only [handle_common_queries, h1, h2, if_true]
  · unfold endOfWeekTs weekdayOf dayOf
    omega
  · unfold endOfWeekTs secOfDay weekdayOf dayOf
    omega
  · unfold endOfWeekTs weekdayOf dayOf
    omega

/-- C3 (witness): the amended week view at a concrete instant and store. -/
theorem C3_witness :
    (handle_common_queries Etriv 216000 [rowEssay] 9 "show tasks due this week").1
      = some ([rowEssay].filter (fun t =>
          decide (216000 ≤ t.Deadline) && decide (t.Deadline ≤ endOfWeekTs 216000))) ∧
    weekdayOf (endOfWeekTs 216000) = 6 ∧
    secOfDay (endOfWeekTs 216000) = 86399 ∧
    dayOf 216000 ≤ dayOf (endOfWeekTs 216000) :=
  C3_amended Etriv 216000 [rowEssay] 9 "show tasks due this week"
    (by decide) (by decide)

/-- C5 (counterexample): "hello" is unclassifiable — no viewing indicator, no
task cue, no relation phrase, no date cue — and `handle_common_queries`
replies with nothing (the caller prints "No results to display"), not with
the full task list. -/
theorem C5_counterexample :
    (handle_common_queries Etriv 1000000 [rowMathHomework] 5 "hello").1 = none ∧
    (none : Option (List TaskRow)) ≠ some [rowMathHomework] := by
  refine ⟨by decide, by decide⟩

/-- C5 (amended): an input that cannot be classified — it contains no viewing
indicator word, is not a task query, hits no relation phrase and no literal
date-cue string — yields no result set at all (surfaced as "No results to
display"), rather than the full task list.  (Other non-viewing inputs can
still reach the unfiltered full-list read: a flexible relation with no end
date, such as "around tomorrow", applies no filter at src lines 424-429.) -/
theorem C5_amended : ∀ (E : Externals) (now : Nat) (store : List TaskRow)
    (nid : Nat) (q : String),
    viewingHit (lowerStr q) = false →
    is_task_query (lowerStr q) = false →
    firstRelation (lowerStr q) = none →
    hasDefaultCue (lowerStr q) = false →
    (handle_common_queries E now store nid q).1 = none := by
  intro E now store nid q h1 h2 h3 h4
  simp only [handle_common_queries, h1, Bool.false_eq_true, if_false]
  simp only [parse_query, h2, h3, h4, Bool.false_eq_true, if_false]
  rfl

/-- C5 (witness): the unclassifiable input "qqq" yields no result set. -/
theorem C5_witness :
    (handle_common_queries Etriv 1000000 [rowMathHomework] 5 "qqq").1 = none :=
  C5_amended Etriv 1000000 [rowMathHomework] 5 "qqq"
    (by decide) (by decide) (by decide) (by decide)

/- ------------------------------------------------------------------ -/
/- Result formatting: format_task_results, src lines 524-554. -/

/-- The sort key order of src line 530: comparison of the parsed `Deadline`
timestamps. -/
def taskLE (a b : TaskRow) : Prop := a.Deadline ≤ b.Deadline

instance : DecidableRel taskLE := fun a b => Nat.decLe a.Deadline b.Deadline

instance : IsTotal TaskRow taskLE := ⟨fun a b => Nat.le_total a.Deadline b.Deadline⟩

instance : IsTrans TaskRow taskLE := ⟨fun _ _ _ => Nat.le_trans⟩

/-- The display order produced by `format_task_results` (src line 530):
Python's `sorted` is a stable sort by the parsed deadline key, modelled by
the stable `insertionSort` on the same key order — any two stable sorts of
the same total preorder agree on every input. -/
def format_task_results_order (tasks : List TaskRow) : List TaskRow :=
  List.insertionSort taskLE tasks

/-- C10: the displayed listing presents exactly the given tasks (a
permutation of the store's rows), in non-decreasing order of their deadline
timestamp, whatever order the store returned them in. -/
theorem C10_theorem : ∀ (tasks : List TaskRow),
    List.Sorted taskLE (format_task_results_order tasks) ∧
    List.Perm (format_task_results_order tasks) tasks := by
  intro tasks
  exact ⟨List.sorted_insertionSort taskLE tasks, List.perm_insertionSort taskLE tasks⟩
